import Mathlib

/-
Verification development for the tradable-liquidity simulation engine of the
tickarray-initer repository.  The embedding translates the three core source
functions (getTick, listTradableAmounts, listTickArrayTradableAmounts) and the
per-simulator try/catch of getWhirlpoolInfo.  The fixed-point math library
(tick index to sqrt price, tick index to price, token amount deltas) is an
external dependency of the repository and is treated, as the specification
directs, as an abstract collaborator supplied by the caller.
-/

/- Protocol constants imported by the source from the whirlpools SDK. -/

def TICK_ARRAY_SIZE : Int := 88

def MAX_TICK_INDEX : Int := 443636

def MIN_TICK_INDEX : Int := -443636

/- Data model.  Only the fields the simulators read are modelled; the source
   TickData also carries fee-growth and reward fields that the simulators
   never touch, and TickArrayData also carries the owning pool's pubkey. -/

structure TickData where
  liquidityNet : Int
deriving DecidableEq

structure TickArrayData where
  startTickIndex : Int
  ticks : List TickData
deriving DecidableEq

structure WhirlpoolData where
  tickSpacing : Int
  tickCurrentIndex : Int
  sqrtPrice : Int
  liquidity : Int
deriving DecidableEq

/- Abstract fixed-point math collaborator (spec section 4.1): the source calls
   PriceMath.tickIndexToSqrtPriceX64, PriceMath.tickIndexToPrice (composed
   with the display rounding toFixedDecimal) and getAmountDeltaA and
   getAmountDeltaB from the external whirlpools SDK.  tickIndexToPrice takes
   the two token decimal counts, exactly as in the source call sites. -/

structure MathCollab where
  tickIndexToSqrtPriceX64 : Int → Int
  tickIndexToPrice : Int → Nat → Nat → ℚ
  getAmountDeltaA : Int → Int → Int → Bool → Int
  getAmountDeltaB : Int → Int → Int → Bool → Int

/- DecimalUtil.fromBN converts a raw token amount to a display decimal by an
   exact division by a power of ten. -/

def fromBN (x : Int) (decimals : Nat) : ℚ := (x : ℚ) / 10 ^ decimals

/- TickUtil.getStartTickIndex with zero offset (spec section 4.2): floor
   division alignment of a tick index to the width of one tick array. -/

def getStartTickIndex (tickIndex tickSpacing : Int) : Int :=
  (tickIndex.fdiv (tickSpacing * TICK_ARRAY_SIZE)) * (tickSpacing * TICK_ARRAY_SIZE)

/- TickArrayUtil.getTickFromArray: the per-tick record at the inner offset of
   the array.  A position outside the supplied list is the implicit
   zero-net record (spec section 3); the traversals below only ever look up
   aligned ticks inside the matched array. -/

def getTickFromArray (tickarray : TickArrayData) (tickIndex tickSpacing : Int) : TickData :=
  tickarray.ticks.getD ((tickIndex - tickarray.startTickIndex).fdiv tickSpacing).toNat ⟨0⟩

/- Source getTick (part_000 lines 246-253): compute the aligned start index,
   scan the supplied arrays for the first loaded one with that start index,
   return its tick record, and return none (Unknown) when no match. -/

def getTick (tickIndex tickSpacing : Int) (tickarrays : List (Option TickArrayData)) : Option TickData :=
  (tickarrays.findSome? fun ta =>
    match ta with
    | some a => if a.startTickIndex = getStartTickIndex tickIndex tickSpacing then some a else none
    | none => none).map fun a => getTickFromArray a tickIndex tickSpacing

structure TradableAmount where
  tickIndex : Int
  price : ℚ
  amountA : ℚ
  amountB : ℚ
deriving DecidableEq

structure TradableAmounts where
  upward : List TradableAmount
  downward : List TradableAmount
  error : Bool
deriving DecidableEq

/- Local quantities of both simulators (part_000 lines 262-265, 337-344). -/

def lowerInitializableTickIndex (whirlpool : WhirlpoolData) : Int :=
  (whirlpool.tickCurrentIndex.fdiv whirlpool.tickSpacing) * whirlpool.tickSpacing

def upperInitializableTickIndex (whirlpool : WhirlpoolData) : Int :=
  lowerInitializableTickIndex whirlpool + whirlpool.tickSpacing

/- Upward loop of listTradableAmounts (part_000 lines 272-294).  The source
   iterates i from 0 to 9 with break statements; here remaining counts the
   loop iterations still allowed (10 at the top call), and i is the source
   loop counter. -/

def upwardLoop (m : MathCollab) (tickArrays : List (Option TickArrayData))
    (tickSpacing upperInit : Int) (decimalsA decimalsB : Nat) :
    Nat → Nat → Int → Int → Int → List TradableAmount
  | 0, _, _, _, _ => []
  | remaining + 1, i, tickIndex, sqrtPrice, liquidity =>
    let candidate := upperInit + (i : Int) * tickSpacing
    let nextTick := getTick candidate tickSpacing tickArrays
    let nextTickIndex := if nextTick.isNone then candidate - 1 else candidate
    if nextTickIndex ≤ tickIndex then []
    else
      let nextSqrtPrice := m.tickIndexToSqrtPriceX64 nextTickIndex
      let nextPrice := m.tickIndexToPrice nextTickIndex decimalsA decimalsB
      let deltaA := m.getAmountDeltaA sqrtPrice nextSqrtPrice liquidity false
      let deltaB := m.getAmountDeltaB sqrtPrice nextSqrtPrice liquidity true
      let record : TradableAmount :=
        ⟨nextTickIndex, nextPrice, fromBN deltaA decimalsA, fromBN deltaB decimalsB⟩
      match nextTick with
      | none => [record]
      | some t =>
        record :: upwardLoop m tickArrays tickSpacing upperInit decimalsA decimalsB
          remaining (i + 1) nextTickIndex nextSqrtPrice (liquidity + t.liquidityNet)

/- Downward loop of listTradableAmounts (part_000 lines 301-321). -/

def downwardLoop (m : MathCollab) (tickArrays : List (Option TickArrayData))
    (tickSpacing lowerInit : Int) (decimalsA decimalsB : Nat) :
    Nat → Nat → Int → Int → Int → List TradableAmount
  | 0, _, _, _, _ => []
  | remaining + 1, i, _tickIndex, sqrtPrice, liquidity =>
    let nextTickIndex := lowerInit - (i : Int) * tickSpacing
    match getTick nextTickIndex tickSpacing tickArrays with
    | none => []
    | some t =>
      let nextSqrtPrice := m.tickIndexToSqrtPriceX64 nextTickIndex
      let nextPrice := m.tickIndexToPrice nextTickIndex decimalsA decimalsB
      let deltaA := m.getAmountDeltaA sqrtPrice nextSqrtPrice liquidity true
      let deltaB := m.getAmountDeltaB sqrtPrice nextSqrtPrice liquidity false
      (⟨nextTickIndex, nextPrice, fromBN deltaA decimalsA, fromBN deltaB decimalsB⟩ :
          TradableAmount) ::
        downwardLoop m tickArrays tickSpacing lowerInit decimalsA decimalsB
          remaining (i + 1) nextTickIndex nextSqrtPrice (liquidity - t.liquidityNet)

/- Source listTradableAmounts (part_000 lines 255-328). -/

def listTradableAmounts (m : MathCollab) (whirlpool : WhirlpoolData)
    (tickArrays : List (Option TickArrayData)) (decimalsA decimalsB : Nat) : TradableAmounts :=
  { upward := upwardLoop m tickArrays whirlpool.tickSpacing
      (upperInitializableTickIndex whirlpool) decimalsA decimalsB
      10 0 whirlpool.tickCurrentIndex whirlpool.sqrtPrice whirlpool.liquidity
    downward := downwardLoop m tickArrays whirlpool.tickSpacing
      (lowerInitializableTickIndex whirlpool) decimalsA decimalsB
      10 0 whirlpool.tickCurrentIndex whirlpool.sqrtPrice whirlpool.liquidity
    error := false }

structure TickArrayTradableAmount where
  tickArrayPubkey : Nat
  tickArrayStartIndex : Int
  tickArrayStartPrice : ℚ
  tickArrayData : Option TickArrayData
  amountA : ℚ
  amountB : ℚ
deriving DecidableEq

structure TickArrayTradableAmounts where
  upward : List TickArrayTradableAmount
  downward : List TickArrayTradableAmount
  error : Bool
deriving DecidableEq

/- Local quantities of listTickArrayTradableAmounts (part_000 lines 339-344). -/

def ticksInArrayOf (whirlpool : WhirlpoolData) : Int :=
  whirlpool.tickSpacing * TICK_ARRAY_SIZE

def currentTickArrayStartIndexOf (whirlpool : WhirlpoolData) : Int :=
  (whirlpool.tickCurrentIndex.fdiv (ticksInArrayOf whirlpool)) * ticksInArrayOf whirlpool

def currentTickArrayIndexOf (whirlpool : WhirlpoolData) (tickArrayStartIndexes : List Int) : Int :=
  (currentTickArrayStartIndexOf whirlpool - tickArrayStartIndexes.getD 0 0).fdiv
    (ticksInArrayOf whirlpool)

/- Upward traversal loop of listTickArrayTradableAmounts (part_000 lines
   365-384).  The source loop runs i upward forever and breaks as soon as the
   candidate tick passes the upward bound; since every iteration advances the
   candidate by tickSpacing, for any positive tickSpacing the loop executes at
   most (bound - upperInit) + 1 iterations, and the wrapper below supplies
   exactly that much fuel, so the fuel never runs out before the break
   fires.  Amounts are accumulated into the per-bucket lists accA and accB at
   position upwardIndex, which advances after every candidate that is a
   multiple of the array width, exactly as in the source. -/

def upwardBucketLoop (m : MathCollab) (tickArrays : List (Option TickArrayData))
    (tickSpacing upperInit bound ticksInArray : Int) (decimalsA decimalsB : Nat) :
    Nat → Nat → Nat → Int → Int → Int → List ℚ → List ℚ → List ℚ × List ℚ
  | 0, _, _, _, _, _, accA, accB => (accA, accB)
  | fuel + 1, i, upwardIndex, _tickIndex, sqrtPrice, liquidity, accA, accB =>
    let nextTickIndex := upperInit + (i : Int) * tickSpacing
    if nextTickIndex > bound then (accA, accB)
    else
      let nextSqrtPrice := m.tickIndexToSqrtPriceX64 nextTickIndex
      let _nextPrice := m.tickIndexToPrice nextTickIndex decimalsA decimalsB
      let deltaADecimal := fromBN (m.getAmountDeltaA sqrtPrice nextSqrtPrice liquidity false) decimalsA
      let deltaBDecimal := fromBN (m.getAmountDeltaB sqrtPrice nextSqrtPrice liquidity true) decimalsB
      let accA := accA.set upwardIndex (accA.getD upwardIndex 0 + deltaADecimal)
      let accB := accB.set upwardIndex (accB.getD upwardIndex 0 + deltaBDecimal)
      let liquidity := match getTick nextTickIndex tickSpacing tickArrays with
        | some t => liquidity + t.liquidityNet
        | none => liquidity
      let upwardIndex := if nextTickIndex % ticksInArray = 0 then upwardIndex + 1 else upwardIndex
      upwardBucketLoop m tickArrays tickSpacing upperInit bound ticksInArray decimalsA decimalsB
        fuel (i + 1) upwardIndex nextTickIndex nextSqrtPrice liquidity accA accB

/- Downward traversal loop of listTickArrayTradableAmounts (part_000 lines
   405-424), fueled the same way. -/

def downwardBucketLoop (m : MathCollab) (tickArrays : List (Option TickArrayData))
    (tickSpacing lowerInit bound ticksInArray : Int) (decimalsA decimalsB : Nat) :
    Nat → Nat → Nat → Int → Int → Int → List ℚ → List ℚ → List ℚ × List ℚ
  | 0, _, _, _, _, _, accA, accB => (accA, accB)
  | fuel + 1, i, downwardIndex, _tickIndex, sqrtPrice, liquidity, accA, accB =>
    let nextTickIndex := lowerInit - (i : Int) * tickSpacing
    if nextTickIndex < bound then (accA, accB)
    else
      let nextSqrtPrice := m.tickIndexToSqrtPriceX64 nextTickIndex
      let _nextPrice := m.tickIndexToPrice nextTickIndex decimalsA decimalsB
      let deltaADecimal := fromBN (m.getAmountDeltaA sqrtPrice nextSqrtPrice liquidity true) decimalsA
      let deltaBDecimal := fromBN (m.getAmountDeltaB sqrtPrice nextSqrtPrice liquidity false) decimalsB
      let accA := accA.set downwardIndex (accA.getD downwardIndex 0 + deltaADecimal)
      let accB := accB.set downwardIndex (accB.getD downwardIndex 0 + deltaBDecimal)
      let liquidity := match getTick nextTickIndex tickSpacing tickArrays with
        | some t => liquidity - t.liquidityNet
        | none => liquidity
      let downwardIndex := if nextTickIndex % ticksInArray = 0 then downwardIndex + 1 else downwardIndex
      downwardBucketLoop m tickArrays tickSpacing lowerInit bound ticksInArray decimalsA decimalsB
        fuel (i + 1) downwardIndex nextTickIndex nextSqrtPrice liquidity accA accB

/- Source listTickArrayTradableAmounts (part_000 lines 330-455).  The
   sub-window construction loops (lines 352-358 and 392-398) copy the slices
   of the three parallel input lists from the current array's position to each
   end; out-of-range accesses (which in the source only arise from malformed
   windows) are modelled with list defaults. -/

def listTickArrayTradableAmounts (m : MathCollab) (whirlpool : WhirlpoolData)
    (tickArrayStartIndexes : List Int) (tickArrayPubkeys : List Nat)
    (tickArrays : List (Option TickArrayData)) (decimalsA decimalsB : Nat) :
    TickArrayTradableAmounts :=
  let tickSpacing := whirlpool.tickSpacing
  let ticksInArray := ticksInArrayOf whirlpool
  let lowerInit := lowerInitializableTickIndex whirlpool
  let upperInit := upperInitializableTickIndex whirlpool
  let curStart := currentTickArrayStartIndexOf whirlpool
  let curIndex := currentTickArrayIndexOf whirlpool tickArrayStartIndexes
  -- upward sub-window (lines 347-358)
  let upCount := ((tickArrayPubkeys.length : Int) - curIndex).toNat
  let upwardTickArrayPubkeys := (List.range upCount).map fun (i : Nat) =>
    tickArrayPubkeys.getD (curIndex + (i : Int)).toNat 0
  let upwardTickArrayStartIndexes := (List.range upCount).map fun (i : Nat) =>
    tickArrayStartIndexes.getD (curIndex + (i : Int)).toNat 0
  let upwardTickArrays := (List.range upCount).map fun (i : Nat) =>
    tickArrays.getD (curIndex + (i : Int)).toNat none
  -- upward traversal (lines 360-384)
  let upwardLastTickIndex := min MAX_TICK_INDEX (curStart + (upwardTickArrays.length : Int) * ticksInArray)
  let upAcc := upwardBucketLoop m tickArrays tickSpacing upperInit upwardLastTickIndex
    ticksInArray decimalsA decimalsB
    ((upwardLastTickIndex - upperInit).toNat + 1) 0 0
    whirlpool.tickCurrentIndex whirlpool.sqrtPrice whirlpool.liquidity
    (List.replicate upCount 0) (List.replicate upCount 0)
  -- downward sub-window (lines 387-398)
  let downCount := (curIndex + 1).toNat
  let downwardTickArrayPubkeys := (List.range downCount).map fun (i : Nat) =>
    tickArrayPubkeys.getD (curIndex - (i : Int)).toNat 0
  let downwardTickArrayStartIndexes := (List.range downCount).map fun (i : Nat) =>
    tickArrayStartIndexes.getD (curIndex - (i : Int)).toNat 0
  let downwardTickArrays := (List.range downCount).map fun (i : Nat) =>
    tickArrays.getD (curIndex - (i : Int)).toNat none
  -- downward traversal (lines 400-424)
  let downwardLastTickIndex := max MIN_TICK_INDEX (curStart - ((downwardTickArrays.length : Int) - 1) * ticksInArray)
  let downAcc := downwardBucketLoop m tickArrays tickSpacing lowerInit downwardLastTickIndex
    ticksInArray decimalsA decimalsB
    ((lowerInit - downwardLastTickIndex).toNat + 1) 0 0
    whirlpool.tickCurrentIndex whirlpool.sqrtPrice whirlpool.liquidity
    (List.replicate downCount 0) (List.replicate downCount 0)
  -- record assembly (lines 426-448)
  { upward := (List.range upwardTickArrayPubkeys.length).map fun i =>
      { tickArrayPubkey := upwardTickArrayPubkeys.getD i 0
        tickArrayStartIndex := upwardTickArrayStartIndexes.getD i 0
        tickArrayStartPrice := m.tickIndexToPrice (upwardTickArrayStartIndexes.getD i 0) decimalsA decimalsB
        tickArrayData := upwardTickArrays.getD i none
        amountA := upAcc.1.getD i 0
        amountB := upAcc.2.getD i 0 }
    downward := (List.range downwardTickArrayPubkeys.length).map fun i =>
      { tickArrayPubkey := downwardTickArrayPubkeys.getD i 0
        tickArrayStartIndex := downwardTickArrayStartIndexes.getD i 0
        tickArrayStartPrice := m.tickIndexToPrice (downwardTickArrayStartIndexes.getD i 0) decimalsA decimalsB
        tickArrayData := downwardTickArrays.getD i none
        amountA := downAcc.1.getD i 0
        amountB := downAcc.2.getD i 0 }
    error := false }

/- Error-substitution pattern of getWhirlpoolInfo (part_000 lines 573-597):
   each simulator is invoked inside its own try block, and a raised exception
   is replaced by an explicit error value for that simulator only.  The
   possibly-raising invocation results are modelled as Except values. -/

def errorTradableAmounts : TradableAmounts := ⟨[], [], true⟩

def errorTickArrayTradableAmounts : TickArrayTradableAmounts := ⟨[], [], true⟩

def catchTradables (r : Except String TradableAmounts) : TradableAmounts :=
  match r with
  | .ok v => v
  | .error _ => errorTradableAmounts

def catchTickArrayTradables (r : Except String TickArrayTradableAmounts) : TickArrayTradableAmounts :=
  match r with
  | .ok v => v
  | .error _ => errorTickArrayTradableAmounts

def whirlpoolDerivedTradables (r1 : Except String TradableAmounts)
    (r2 : Except String TickArrayTradableAmounts) :
    TradableAmounts × TickArrayTradableAmounts :=
  (catchTradables r1, catchTickArrayTradables r2)

/- Simple concrete collaborator used to evaluate the development on concrete
   inputs.  It satisfies the properties the specification demands of the
   external library (monotone in the price arguments, zero delta on an empty
   price interval). -/

def simpleMath : MathCollab :=
  { tickIndexToSqrtPriceX64 := fun t => t
    tickIndexToPrice := fun t _ _ => (t : ℚ)
    getAmountDeltaA := fun lo hi _ _ => hi - lo
    getAmountDeltaB := fun lo hi _ _ => hi - lo }

/- Variant of the upward per-step loop that applies the downward loop's
   edge-of-data policy: an Unknown lookup stops the traversal immediately,
   with no capped partial step.  Known steps behave exactly as in upwardLoop.
   Used to state that with tickSpacing one the two policies coincide. -/

def upwardLoopStopOnUnknown (m : MathCollab) (tickArrays : List (Option TickArrayData))
    (tickSpacing upperInit : Int) (decimalsA decimalsB : Nat) :
    Nat → Nat → Int → Int → Int → List TradableAmount
  | 0, _, _, _, _ => []
  | remaining + 1, i, tickIndex, sqrtPrice, liquidity =>
    let nextTickIndex := upperInit + (i : Int) * tickSpacing
    match getTick nextTickIndex tickSpacing tickArrays with
    | none => []
    | some t =>
      if nextTickIndex ≤ tickIndex then []
      else
        let nextSqrtPrice := m.tickIndexToSqrtPriceX64 nextTickIndex
        let nextPrice := m.tickIndexToPrice nextTickIndex decimalsA decimalsB
        let deltaA := m.getAmountDeltaA sqrtPrice nextSqrtPrice liquidity false
        let deltaB := m.getAmountDeltaB sqrtPrice nextSqrtPrice liquidity true
        (⟨nextTickIndex, nextPrice, fromBN deltaA decimalsA, fromBN deltaB decimalsB⟩ :
            TradableAmount) ::
          upwardLoopStopOnUnknown m tickArrays tickSpacing upperInit decimalsA decimalsB
            remaining (i + 1) nextTickIndex nextSqrtPrice (liquidity + t.liquidityNet)

/- Concrete scenario of the specification's section 8: tickSpacing 64, current
   tick 1000, constant liquidity 1000000, all arrays of a two-array radius
   window loaded with zero liquidityNet on every tick, except that the array
   one step above the current one (start index 5632) is not loaded. -/

def scenarioPool : WhirlpoolData := ⟨64, 1000, 1000, 1000000⟩

def zeroTickArray (startTickIndex : Int) : TickArrayData :=
  ⟨startTickIndex, List.replicate 88 ⟨0⟩⟩

def scenarioWindow : List (Option TickArrayData) :=
  [some (zeroTickArray (-11264)), some (zeroTickArray (-5632)), some (zeroTickArray 0),
    none, some (zeroTickArray 11264)]

def scenarioWindowAllKnown : List (Option TickArrayData) :=
  [some (zeroTickArray (-11264)), some (zeroTickArray (-5632)), some (zeroTickArray 0),
    some (zeroTickArray 5632), some (zeroTickArray 11264)]

/- Theorems. -/

/-- C1 (corrected).  For every pool state and bucket set in which every tick
lookup returns Unknown, the downward direction of listTradableAmounts returns
zero records, while the upward direction returns zero records exactly when the
decremented first candidate (upperInit - 1) makes no forward progress past the
current tick, and otherwise returns exactly one capped record.  The original
claim that both directions always return zero records fails on the code. -/
theorem c1_amended_allUnknown (m : MathCollab) (pool : WhirlpoolData)
    (tas : List (Option TickArrayData)) (dA dB : Nat)
    (hall : ∀ t : Int, getTick t pool.tickSpacing tas = none) :
    (listTradableAmounts m pool tas dA dB).downward = []
    ∧ ((listTradableAmounts m pool tas dA dB).upward = []
        ↔ upperInitializableTickIndex pool - 1 ≤ pool.tickCurrentIndex)
    ∧ (pool.tickCurrentIndex < upperInitializableTickIndex pool - 1
        → (listTradableAmounts m pool tas dA dB).upward.length = 1) := by
  have h10 : (10 : Nat) = 9 + 1 := rfl
  refine ⟨?_, ?_, ?_⟩
  · simp only [listTradableAmounts, h10, downwardLoop, hall]
  · simp only [listTradableAmounts, h10, upwardLoop, hall, Option.isNone_none, if_true]
    constructor
    · intro h
      by_contra hlt
      simp only [if_neg (by omega : ¬ (upperInitializableTickIndex pool + (0 : Nat) * pool.tickSpacing - 1 ≤ pool.tickCurrentIndex))] at h
      · exact List.cons_ne_nil _ _ h
    · intro h
      rw [if_pos (by push_cast; omega)]
  · intro h
    simp only [listTradableAmounts, h10, upwardLoop, hall, Option.isNone_none, if_true]
    rw [if_neg (by push_cast; omega)]
    rfl

/-- C1 counterexample: with tick spacing 2 and current tick 0, no loaded
buckets, the upward direction emits one capped record, so the claim that both
directions are empty is false at this input. -/
theorem c1_counterexample :
    ¬ ((listTradableAmounts simpleMath ⟨2, 0, 0, 5⟩ [] 0 0).upward = []
        ∧ (listTradableAmounts simpleMath ⟨2, 0, 0, 5⟩ [] 0 0).downward = []) := by
  decide

/-- C1 witness: the amended statement applied at a concrete input with no
loaded buckets. -/
theorem c1_witness :
    (listTradableAmounts simpleMath ⟨2, 0, 0, 5⟩ [] 0 0).downward = []
    ∧ ((listTradableAmounts simpleMath ⟨2, 0, 0, 5⟩ [] 0 0).upward = []
        ↔ upperInitializableTickIndex ⟨2, 0, 0, 5⟩ - 1 ≤ (0 : Int))
    ∧ ((0 : Int) < upperInitializableTickIndex ⟨2, 0, 0, 5⟩ - 1
        → (listTradableAmounts simpleMath ⟨2, 0, 0, 5⟩ [] 0 0).upward.length = 1) :=
  c1_amended_allUnknown simpleMath ⟨2, 0, 0, 5⟩ [] 0 0 (fun _ => rfl)

/-- C2 (confirmed).  In the upward direction of listTradableAmounts, at any
step whose tick lookup returns Unknown the candidate tick is decremented by
one unit; if the decremented candidate is not strictly greater than the
current working tick the traversal stops without emitting a record, and
otherwise it emits exactly one record with the deltas computed up to the
decremented candidate and then stops. -/
theorem c2_upwardUnknownCapsAndStops (m : MathCollab) (tas : List (Option TickArrayData))
    (ts upperInit : Int) (dA dB : Nat) (r i : Nat) (t sp L : Int)
    (hu : getTick (upperInit + (i : Int) * ts) ts tas = none) :
    (upperInit + (i : Int) * ts - 1 ≤ t →
      upwardLoop m tas ts upperInit dA dB (r + 1) i t sp L = [])
    ∧ (t < upperInit + (i : Int) * ts - 1 →
      upwardLoop m tas ts upperInit dA dB (r + 1) i t sp L =
        [⟨upperInit + (i : Int) * ts - 1,
          m.tickIndexToPrice (upperInit + (i : Int) * ts - 1) dA dB,
          fromBN (m.getAmountDeltaA sp
            (m.tickIndexToSqrtPriceX64 (upperInit + (i : Int) * ts - 1)) L false) dA,
          fromBN (m.getAmountDeltaB sp
            (m.tickIndexToSqrtPriceX64 (upperInit + (i : Int) * ts - 1)) L true) dB⟩]) := by
  constructor
  · intro h
    simp only [upwardLoop, hu, Option.isNone_none, if_true]
    rw [if_pos h]
  · intro h
    simp only [upwardLoop, hu, Option.isNone_none, if_true]
    rw [if_neg (by omega)]

/-- C2 witness: the capped single-record branch evaluated at a concrete
input (tick spacing 2, empty bucket set, working tick 0, candidate 2). -/
theorem c2_witness :
    getTick (2 + ((0 : Nat) : Int) * 2) 2 [] = none
    ∧ upwardLoop simpleMath [] 2 2 0 0 (9 + 1) 0 0 0 5 =
        [⟨2 + ((0 : Nat) : Int) * 2 - 1,
          simpleMath.tickIndexToPrice (2 + ((0 : Nat) : Int) * 2 - 1) 0 0,
          fromBN (simpleMath.getAmountDeltaA 0
            (simpleMath.tickIndexToSqrtPriceX64 (2 + ((0 : Nat) : Int) * 2 - 1)) 5 false) 0,
          fromBN (simpleMath.getAmountDeltaB 0
            (simpleMath.tickIndexToSqrtPriceX64 (2 + ((0 : Nat) : Int) * 2 - 1)) 5 true) 0⟩] :=
  ⟨rfl, (c2_upwardUnknownCapsAndStops simpleMath [] 2 2 0 0 9 0 0 0 5 rfl).2 (by decide)⟩

/-- C3 (confirmed).  In the downward direction of listTradableAmounts, a step
whose tick lookup returns Unknown stops the traversal immediately with no
record, and a step whose lookup is known emits its record and continues with
the working liquidity decremented by the crossed tick's liquidityNet. -/
theorem c3_downwardUnknownStopsKnownEmits (m : MathCollab) (tas : List (Option TickArrayData))
    (ts lowerInit : Int) (dA dB : Nat) (r i : Nat) (t sp L : Int) :
    (getTick (lowerInit - (i : Int) * ts) ts tas = none →
      downwardLoop m tas ts lowerInit dA dB (r + 1) i t sp L = [])
    ∧ (∀ tk : TickData, getTick (lowerInit - (i : Int) * ts) ts tas = some tk →
      downwardLoop m tas ts lowerInit dA dB (r + 1) i t sp L =
        (⟨lowerInit - (i : Int) * ts,
          m.tickIndexToPrice (lowerInit - (i : Int) * ts) dA dB,
          fromBN (m.getAmountDeltaA sp
            (m.tickIndexToSqrtPriceX64 (lowerInit - (i : Int) * ts)) L true) dA,
          fromBN (m.getAmountDeltaB sp
            (m.tickIndexToSqrtPriceX64 (lowerInit - (i : Int) * ts)) L false) dB⟩ :
            TradableAmount) ::
          downwardLoop m tas ts lowerInit dA dB r (i + 1) (lowerInit - (i : Int) * ts)
            (m.tickIndexToSqrtPriceX64 (lowerInit - (i : Int) * ts)) (L - tk.liquidityNet)) := by
  constructor
  · intro h
    simp only [downwardLoop, h]
  · intro tk h
    simp only [downwardLoop, h]

/-- C3 witness: both branches evaluated at concrete inputs: with no loaded
buckets the downward loop stops empty, and with the zero-start bucket loaded
the first step emits and recurses with the net subtracted. -/
theorem c3_witness :
    downwardLoop simpleMath [] 2 0 0 0 (9 + 1) 0 0 0 5 = []
    ∧ downwardLoop simpleMath [some (zeroTickArray 0)] 2 0 0 0 (9 + 1) 0 0 0 5 =
        (⟨0 - ((0 : Nat) : Int) * 2,
          simpleMath.tickIndexToPrice (0 - ((0 : Nat) : Int) * 2) 0 0,
          fromBN (simpleMath.getAmountDeltaA 0
            (simpleMath.tickIndexToSqrtPriceX64 (0 - ((0 : Nat) : Int) * 2)) 5 true) 0,
          fromBN (simpleMath.getAmountDeltaB 0
            (simpleMath.tickIndexToSqrtPriceX64 (0 - ((0 : Nat) : Int) * 2)) 5 false) 0⟩ :
            TradableAmount) ::
          downwardLoop simpleMath [some (zeroTickArray 0)] 2 0 0 0 9 1 (0 - ((0 : Nat) : Int) * 2)
            (simpleMath.tickIndexToSqrtPriceX64 (0 - ((0 : Nat) : Int) * 2))
            (5 - (⟨0⟩ : TickData).liquidityNet) :=
  ⟨(c3_downwardUnknownStopsKnownEmits simpleMath [] 2 0 0 0 9 0 0 0 5).1 rfl,
    (c3_downwardUnknownStopsKnownEmits simpleMath [some (zeroTickArray 0)] 2 0 0 0 9 0 0 0 5).2
      ⟨0⟩ (by decide)⟩

/-- C4 (confirmed).  In listTickArrayTradableAmounts, a tick whose lookup
returns Unknown does not stop the traversal in either direction: the step's
deltas are accumulated, the working liquidity is left unchanged, and stepping
continues toward the sub-window bound — exactly the continuation produced by
a known tick whose liquidityNet is zero. -/
theorem c4_bucketUnknownZeroFillContinues (m : MathCollab)
    (tas : List (Option TickArrayData)) (ts tIA : Int) (dA dB : Nat) :
    (∀ (upperInit bound : Int) (f i idx : Nat) (t sp L : Int) (accA accB : List ℚ),
      ¬ upperInit + (i : Int) * ts > bound →
      getTick (upperInit + (i : Int) * ts) ts tas = none →
      upwardBucketLoop m tas ts upperInit bound tIA dA dB (f + 1) i idx t sp L accA accB
        = upwardBucketLoop m tas ts upperInit bound tIA dA dB f (i + 1)
            (if (upperInit + (i : Int) * ts) % tIA = 0 then idx + 1 else idx)
            (upperInit + (i : Int) * ts)
            (m.tickIndexToSqrtPriceX64 (upperInit + (i : Int) * ts)) L
            (accA.set idx (accA.getD idx 0 + fromBN (m.getAmountDeltaA sp
              (m.tickIndexToSqrtPriceX64 (upperInit + (i : Int) * ts)) L false) dA))
            (accB.set idx (accB.getD idx 0 + fromBN (m.getAmountDeltaB sp
              (m.tickIndexToSqrtPriceX64 (upperInit + (i : Int) * ts)) L true) dB)))
    ∧ (∀ (tas2 : List (Option TickArrayData)) (tk : TickData)
        (upperInit bound : Int) (f i idx : Nat) (t sp L : Int) (accA accB : List ℚ),
      ¬ upperInit + (i : Int) * ts > bound →
      getTick (upperInit + (i : Int) * ts) ts tas2 = some tk →
      tk.liquidityNet = 0 →
      upwardBucketLoop m tas2 ts upperInit bound tIA dA dB (f + 1) i idx t sp L accA accB
        = upwardBucketLoop m tas2 ts upperInit bound tIA dA dB f (i + 1)
            (if (upperInit + (i : Int) * ts) % tIA = 0 then idx + 1 else idx)
            (upperInit + (i : Int) * ts)
            (m.tickIndexToSqrtPriceX64 (upperInit + (i : Int) * ts)) L
            (accA.set idx (accA.getD idx 0 + fromBN (m.getAmountDeltaA sp
              (m.tickIndexToSqrtPriceX64 (upperInit + (i : Int) * ts)) L false) dA))
            (accB.set idx (accB.getD idx 0 + fromBN (m.getAmountDeltaB sp
              (m.tickIndexToSqrtPriceX64 (upperInit + (i : Int) * ts)) L true) dB)))
    ∧ (∀ (lowerInit bound : Int) (f i idx : Nat) (t sp L : Int) (accA accB : List ℚ),
      ¬ lowerInit - (i : Int) * ts < bound →
      getTick (lowerInit - (i : Int) * ts) ts tas = none →
      downwardBucketLoop m tas ts lowerInit bound tIA dA dB (f + 1) i idx t sp L accA accB
        = downwardBucketLoop m tas ts lowerInit bound tIA dA dB f (i + 1)
            (if (lowerInit - (i : Int) * ts) % tIA = 0 then idx + 1 else idx)
            (lowerInit - (i : Int) * ts)
            (m.tickIndexToSqrtPriceX64 (lowerInit - (i : Int) * ts)) L
            (accA.set idx (accA.getD idx 0 + fromBN (m.getAmountDeltaA sp
              (m.tickIndexToSqrtPriceX64 (lowerInit - (i : Int) * ts)) L true) dA))
            (accB.set idx (accB.getD idx 0 + fromBN (m.getAmountDeltaB sp
              (m.tickIndexToSqrtPriceX64 (lowerInit - (i : Int) * ts)) L false) dB)))
    ∧ (∀ (tas2 : List (Option TickArrayData)) (tk : TickData)
        (lowerInit bound : Int) (f i idx : Nat) (t sp L : Int) (accA accB : List ℚ),
      ¬ lowerInit - (i : Int) * ts < bound →
      getTick (lowerInit - (i : Int) * ts) ts tas2 = some tk →
      tk.liquidityNet = 0 →
      downwardBucketLoop m tas2 ts lowerInit bound tIA dA dB (f + 1) i idx t sp L accA accB
        = downwardBucketLoop m tas2 ts lowerInit bound tIA dA dB f (i + 1)
            (if (lowerInit - (i : Int) * ts) % tIA = 0 then idx + 1 else idx)
            (lowerInit - (i : Int) * ts)
            (m.tickIndexToSqrtPriceX64 (lowerInit - (i : Int) * ts)) L
            (accA.set idx (accA.getD idx 0 + fromBN (m.getAmountDeltaA sp
              (m.tickIndexToSqrtPriceX64 (lowerInit - (i : Int) * ts)) L true) dA))
            (accB.set idx (accB.getD idx 0 + fromBN (m.getAmountDeltaB sp
              (m.tickIndexToSqrtPriceX64 (lowerInit - (i : Int) * ts)) L false) dB))) := by
  refine ⟨?_, ?_, ?_, ?_⟩
  · intro upperInit bound f i idx t sp L accA accB hle hu
    simp only [upwardBucketLoop, hu, if_neg hle]
  · intro tas2 tk upperInit bound f i idx t sp L accA accB hle hk hz
    simp only [upwardBucketLoop, hk, hz, if_neg hle, add_zero]
  · intro lowerInit bound f i idx t sp L accA accB hge hu
    simp only [downwardBucketLoop, hu, if_neg hge]
  · intro tas2 tk lowerInit bound f i idx t sp L accA accB hge hk hz
    simp only [downwardBucketLoop, hk, hz, if_neg hge, sub_zero]

/-- C4 witness: the unknown-tick branch of the upward bucket loop applied at
a concrete input (empty bucket set, candidate tick 1 within bound 10). -/
theorem c4_witness :
    ¬ (1 : Int) + ((0 : Nat) : Int) * 1 > 10
    ∧ getTick (1 + ((0 : Nat) : Int) * 1) 1 [] = none
    ∧ upwardBucketLoop simpleMath [] 1 1 10 88 0 0 (0 + 1) 0 0 0 0 7 [0] [0]
      = upwardBucketLoop simpleMath [] 1 1 10 88 0 0 0 (0 + 1)
          (if ((1 : Int) + ((0 : Nat) : Int) * 1) % 88 = 0 then 0 + 1 else 0)
          (1 + ((0 : Nat) : Int) * 1)
          (simpleMath.tickIndexToSqrtPriceX64 (1 + ((0 : Nat) : Int) * 1)) 7
          (List.set [0] 0 (List.getD [0] 0 0 + fromBN (simpleMath.getAmountDeltaA 0
            (simpleMath.tickIndexToSqrtPriceX64 (1 + ((0 : Nat) : Int) * 1)) 7 false) 0))
          (List.set [0] 0 (List.getD [0] 0 0 + fromBN (simpleMath.getAmountDeltaB 0
            (simpleMath.tickIndexToSqrtPriceX64 (1 + ((0 : Nat) : Int) * 1)) 7 true) 0)) :=
  ⟨by decide, rfl,
    (c4_bucketUnknownZeroFillContinues simpleMath [] 1 88 0 0).1 1 10 0 0 0 0 0 7 [0] [0]
      (by decide) rfl⟩

/-- C5 (corrected).  In the concrete scenario (tick spacing 64, current tick
1000, liquidity 1000000, loaded zero-net arrays at -11264, -5632, 0 and 11264
and the array at 5632 unknown), the upward direction emits its full ten
records at ticks 1024 through 1600 — not a single capped record — because
ten steps of 64 ticks never reach the unknown array, and the downward
direction emits its full ten records; the whole output moreover coincides
with the output for the fully loaded window. -/
theorem c5_amended_tenRecordsBothWays (m : MathCollab) :
    (listTradableAmounts m scenarioPool scenarioWindow 0 0).upward.map
        TradableAmount.tickIndex
      = [1024, 1088, 1152, 1216, 1280, 1344, 1408, 1472, 1536, 1600]
    ∧ (listTradableAmounts m scenarioPool scenarioWindow 0 0).downward.map
        TradableAmount.tickIndex
      = [960, 896, 832, 768, 704, 640, 576, 512, 448, 384]
    ∧ listTradableAmounts m scenarioPool scenarioWindow 0 0
      = listTradableAmounts m scenarioPool scenarioWindowAllKnown 0 0 :=
  ⟨rfl, rfl, rfl⟩

/-- C5 counterexample: in that scenario the upward direction does not emit
exactly one record, refuting the claimed single capped partial step. -/
theorem c5_counterexample :
    ¬ (listTradableAmounts simpleMath scenarioPool scenarioWindow 0 0).upward.length = 1 := by
  decide

/-- C7 (confirmed).  For every input window whose computed current-array
position lies inside the supplied sequence, listTickArrayTradableAmounts
emits exactly one record per bucket of each sub-window: the upward output has
one record per bucket from the current position to the end of the sequence,
and the downward output one record per bucket from that position down to the
start, with no condition on whether any bucket is loaded. -/
theorem c7_oneRecordPerBucket (m : MathCollab) (pool : WhirlpoolData)
    (starts : List Int) (pks : List Nat) (tas : List (Option TickArrayData)) (dA dB : Nat)
    (h0 : 0 ≤ currentTickArrayIndexOf pool starts)
    (h1 : currentTickArrayIndexOf pool starts < (pks.length : Int)) :
    (listTickArrayTradableAmounts m pool starts pks tas dA dB).upward.length
        = pks.length - (currentTickArrayIndexOf pool starts).toNat
    ∧ (listTickArrayTradableAmounts m pool starts pks tas dA dB).downward.length
        = (currentTickArrayIndexOf pool starts).toNat + 1 := by
  constructor
  · simp only [listTickArrayTradableAmounts, List.length_map, List.length_range]
    omega
  · simp only [listTickArrayTradableAmounts, List.length_map, List.length_range]
    omega

/-- C7 witness: a concrete five-bucket window around the scenario pool, with
the current bucket at position two, yielding three upward records and three
downward records. -/
theorem c7_witness :
    (0 : Int) ≤ currentTickArrayIndexOf scenarioPool [-11264, -5632, 0, 5632, 11264]
    ∧ currentTickArrayIndexOf scenarioPool [-11264, -5632, 0, 5632, 11264] < (5 : Int)
    ∧ (listTickArrayTradableAmounts simpleMath scenarioPool [-11264, -5632, 0, 5632, 11264]
        [1, 2, 3, 4, 5] scenarioWindow 0 0).upward.length
        = 5 - (currentTickArrayIndexOf scenarioPool [-11264, -5632, 0, 5632, 11264]).toNat
    ∧ (listTickArrayTradableAmounts simpleMath scenarioPool [-11264, -5632, 0, 5632, 11264]
        [1, 2, 3, 4, 5] scenarioWindow 0 0).downward.length
        = (currentTickArrayIndexOf scenarioPool [-11264, -5632, 0, 5632, 11264]).toNat + 1 := by
  refine ⟨by decide, by decide, ?_, ?_⟩
  · exact (c7_oneRecordPerBucket simpleMath scenarioPool [-11264, -5632, 0, 5632, 11264]
      [1, 2, 3, 4, 5] scenarioWindow 0 0 (by decide) (by decide)).1
  · exact (c7_oneRecordPerBucket simpleMath scenarioPool [-11264, -5632, 0, 5632, 11264]
      [1, 2, 3, 4, 5] scenarioWindow 0 0 (by decide) (by decide)).2

/-- C9 (confirmed).  The orchestrating caller getWhirlpoolInfo wraps each
simulator invocation in its own catch: a raised exception is replaced by the
explicit error result (empty upward and downward sequences, error flag set)
for that simulator alone, the exception is not propagated, and the other
simulator's result is kept unchanged. -/
theorem c9_perSimulatorErrorSubstitution :
    (∀ (e : String) (r2 : Except String TickArrayTradableAmounts),
      whirlpoolDerivedTradables (Except.error e) r2
        = (errorTradableAmounts, catchTickArrayTradables r2))
    ∧ (∀ (e : String) (r1 : Except String TradableAmounts),
      whirlpoolDerivedTradables r1 (Except.error e)
        = (catchTradables r1, errorTickArrayTradableAmounts))
    ∧ (∀ (e : String) (v2 : TickArrayTradableAmounts),
      whirlpoolDerivedTradables (Except.error e) (Except.ok v2)
        = (errorTradableAmounts, v2))
    ∧ (∀ (e : String) (v1 : TradableAmounts),
      whirlpoolDerivedTradables (Except.ok v1) (Except.error e)
        = (v1, errorTickArrayTradableAmounts)) :=
  ⟨fun _ _ => rfl, fun _ _ => rfl, fun _ _ => rfl, fun _ _ => rfl⟩

/-- Helper for C10: with tick spacing one, starting from the invariant state
in which the working tick sits one unit below the next candidate, the upward
per-step loop coincides with the variant that stops immediately on an
Unknown lookup. -/
theorem upwardLoop_ts_one_eq_stopOnUnknown (m : MathCollab)
    (tas : List (Option TickArrayData)) (upperInit : Int) (dA dB : Nat) :
    ∀ (r i : Nat) (sp L : Int),
      upwardLoop m tas 1 upperInit dA dB r i (upperInit + (i : Int) - 1) sp L
        = upwardLoopStopOnUnknown m tas 1 upperInit dA dB r i (upperInit + (i : Int) - 1) sp L := by
  intro r
  induction r with
  | zero => intro i sp L; rfl
  | succ r ih =>
    intro i sp L
    simp only [upwardLoop, upwardLoopStopOnUnknown, mul_one]
    cases h : getTick (upperInit + (i : Int)) 1 tas with
    | none =>
      simp only [h, Option.isNone_none, if_true, if_pos (by omega : upperInit + (i : Int) - 1 ≤ upperInit + (i : Int) - 1)]
    | some tk =>
      simp only [h, Option.isNone_some, Bool.false_eq_true, if_false,
        if_neg (by omega : ¬ upperInit + (i : Int) ≤ upperInit + (i : Int) - 1)]
      have := ih (i + 1) (m.tickIndexToSqrtPriceX64 (upperInit + (i : Int))) (L + tk.liquidityNet)
      push_cast at this
      rw [show upperInit + ((i : Int) + 1) - 1 = upperInit + (i : Int) from by ring] at this
      rw [this]

/-- C10 (confirmed).  For every pool with tick spacing one, the upward
direction of listTradableAmounts behaves exactly like the stop-on-unknown
(downward-style) traversal: whenever a lookup returns Unknown the decremented
candidate equals the current working tick, so the traversal stops without
emitting a capped partial-step record. -/
theorem c10_tickSpacingOne_noCappedStep (m : MathCollab) (pool : WhirlpoolData)
    (tas : List (Option TickArrayData)) (dA dB : Nat) (hts : pool.tickSpacing = 1) :
    (listTradableAmounts m pool tas dA dB).upward
      = upwardLoopStopOnUnknown m tas 1 (upperInitializableTickIndex pool) dA dB
          10 0 pool.tickCurrentIndex pool.sqrtPrice pool.liquidity := by
  have hup : upperInitializableTickIndex pool = pool.tickCurrentIndex + 1 := by
    simp [upperInitializableTickIndex, lowerInitializableTickIndex, hts, Int.fdiv_one]
  have h := upwardLoop_ts_one_eq_stopOnUnknown m tas (upperInitializableTickIndex pool) dA dB
    10 0 pool.sqrtPrice pool.liquidity
  simp only [Nat.cast_zero, add_zero] at h
  rw [show upperInitializableTickIndex pool - 1 = pool.tickCurrentIndex by omega] at h
  simpa [listTradableAmounts, hts] using h

/-- C10 witness: a concrete tick-spacing-one pool whose upward walk runs off
the edge of the single loaded array; the upward output coincides with the
stop-on-unknown traversal. -/
theorem c10_witness :
    (listTradableAmounts simpleMath (⟨1, 85, 85, 9⟩ : WhirlpoolData)
        [some (zeroTickArray 0)] 0 0).upward
      = upwardLoopStopOnUnknown simpleMath [some (zeroTickArray 0)] 1
          (upperInitializableTickIndex (⟨1, 85, 85, 9⟩ : WhirlpoolData)) 0 0
          10 0 85 85 9 :=
  c10_tickSpacingOne_noCappedStep simpleMath ⟨1, 85, 85, 9⟩ [some (zeroTickArray 0)] 0 0 rfl

/-- Helper for C8: every record of the upward per-step loop carries a tick
strictly above the working tick it was emitted from, its price is the
collaborator's price of its tick, and the record prices grow strictly along
the list when the collaborator's price map is strictly monotone. -/
theorem upwardLoop_price_chain (m : MathCollab) (tas : List (Option TickArrayData))
    (ts upperInit : Int) (dA dB : Nat)
    (hmono : StrictMono fun t : Int => m.tickIndexToPrice t dA dB) :
    ∀ (r i : Nat) (t sp L : Int),
      List.Chain' (fun a b : TradableAmount => a.price < b.price)
        (upwardLoop m tas ts upperInit dA dB r i t sp L)
      ∧ ∀ x ∈ upwardLoop m tas ts upperInit dA dB r i t sp L,
          t < x.tickIndex ∧ x.price = m.tickIndexToPrice x.tickIndex dA dB := by
  intro r
  induction r with
  | zero => intro i t sp L; exact ⟨List.chain'_nil, by intro x hx; cases hx⟩
  | succ r ih =>
    intro i t sp L
    simp only [upwardLoop]
    cases h : getTick (upperInit + (i : Int) * ts) ts tas with
    | none =>
      simp only [Option.isNone_none, if_true]
      by_cases hle : upperInit + (i : Int) * ts - 1 ≤ t
      · rw [if_pos hle]
        exact ⟨List.chain'_nil, by intro x hx; cases hx⟩
      · rw [if_neg hle]
        refine ⟨List.chain'_singleton _, ?_⟩
        intro x hx
        rcases List.mem_singleton.mp hx with rfl
        refine ⟨?_, rfl⟩
        show t < upperInit + (i : Int) * ts - 1
        omega
    | some tk =>
      simp only [Option.isNone_some, Bool.false_eq_true, if_false]
      by_cases hle : upperInit + (i : Int) * ts ≤ t
      · rw [if_pos hle]
        exact ⟨List.chain'_nil, by intro x hx; cases hx⟩
      · rw [if_neg hle]
        obtain ⟨ihchain, ihmem⟩ := ih (i + 1) (upperInit + (i : Int) * ts)
          (m.tickIndexToSqrtPriceX64 (upperInit + (i : Int) * ts)) (L + tk.liquidityNet)
        constructor
        · rw [List.chain'_cons']
          refine ⟨?_, ihchain⟩
          intro b hb
          have hmem := ihmem b (List.mem_of_mem_head? hb)
          have : upperInit + (i : Int) * ts < b.tickIndex := hmem.1
          calc m.tickIndexToPrice (upperInit + (i : Int) * ts) dA dB
              < m.tickIndexToPrice b.tickIndex dA dB := hmono this
            _ = b.price := (hmem.2).symm
        · intro x hx
          rcases List.mem_cons.mp hx with rfl | hx
          · refine ⟨?_, rfl⟩
            show t < upperInit + (i : Int) * ts
            omega
          · obtain ⟨h1, h2⟩ := ihmem x hx
            refine ⟨?_, h2⟩
            have : upperInit + (i : Int) * ts < x.tickIndex := h1
            omega

/-- Helper for C8: every record of the downward per-step loop carries a tick
at or below its step's candidate, its price is the collaborator's price of
its tick, and for positive tick spacing the record prices strictly decrease
along the list when the collaborator's price map is strictly monotone. -/
theorem downwardLoop_price_chain (m : MathCollab) (tas : List (Option TickArrayData))
    (ts lowerInit : Int) (dA dB : Nat) (hts : 0 < ts)
    (hmono : StrictMono fun t : Int => m.tickIndexToPrice t dA dB) :
    ∀ (r i : Nat) (t sp L : Int),
      List.Chain' (fun a b : TradableAmount => b.price < a.price)
        (downwardLoop m tas ts lowerInit dA dB r i t sp L)
      ∧ ∀ x ∈ downwardLoop m tas ts lowerInit dA dB r i t sp L,
          x.tickIndex ≤ lowerInit - (i : Int) * ts
          ∧ x.price = m.tickIndexToPrice x.tickIndex dA dB := by
  intro r
  induction r with
  | zero => intro i t sp L; exact ⟨List.chain'_nil, by intro x hx; cases hx⟩
  | succ r ih =>
    intro i t sp L
    simp only [downwardLoop]
    cases h : getTick (lowerInit - (i : Int) * ts) ts tas with
    | none => exact ⟨List.chain'_nil, by intro x hx; cases hx⟩
    | some tk =>
      obtain ⟨ihchain, ihmem⟩ := ih (i + 1) (lowerInit - (i : Int) * ts)
        (m.tickIndexToSqrtPriceX64 (lowerInit - (i : Int) * ts)) (L - tk.liquidityNet)
      constructor
      · rw [List.chain'_cons']
        refine ⟨?_, ihchain⟩
        intro b hb
        have hmem := ihmem b (List.mem_of_mem_head? hb)
        have hlt : b.tickIndex < lowerInit - (i : Int) * ts := by
          have := hmem.1
          push_cast at this ⊢
          nlinarith
        rw [hmem.2]
        exact hmono hlt
      · intro x hx
        rcases List.mem_cons.mp hx with rfl | hx
        · exact ⟨le_refl _, rfl⟩
        · obtain ⟨h1, h2⟩ := ihmem x hx
          refine ⟨?_, h2⟩
          have : (((i : Nat) + 1 : Nat) : Int) = (i : Int) + 1 := by push_cast; ring
          rw [this] at h1
          nlinarith

/-- C8 (confirmed).  For every pool with positive tick spacing and every
bucket set, when the collaborator's tick-to-price map is strictly monotone
(as the specification requires of the external math library), the price
fields of adjacent records of listTradableAmounts are strictly increasing
along the upward direction and strictly decreasing along the downward
direction. -/
theorem c8_priceStrictlyMonotone (m : MathCollab) (pool : WhirlpoolData)
    (tas : List (Option TickArrayData)) (dA dB : Nat)
    (hts : 0 < pool.tickSpacing)
    (hmono : StrictMono fun t : Int => m.tickIndexToPrice t dA dB) :
    List.Chain' (· < ·)
      ((listTradableAmounts m pool tas dA dB).upward.map TradableAmount.price)
    ∧ List.Chain' (· > ·)
      ((listTradableAmounts m pool tas dA dB).downward.map TradableAmount.price) := by
  constructor
  · rw [List.chain'_map]
    exact (upwardLoop_price_chain m tas pool.tickSpacing (upperInitializableTickIndex pool)
      dA dB hmono 10 0 pool.tickCurrentIndex pool.sqrtPrice pool.liquidity).1
  · rw [List.chain'_map]
    exact (downwardLoop_price_chain m tas pool.tickSpacing (lowerInitializableTickIndex pool)
      dA dB hts hmono 10 0 pool.tickCurrentIndex pool.sqrtPrice pool.liquidity).1

/-- C8 witness: the strict price monotonicity applied to the concrete
scenario pool and window with the concrete collaborator, whose price map is
the strictly monotone integer embedding into the rationals. -/
theorem c8_witness :
    List.Chain' (· < ·)
      ((listTradableAmounts simpleMath scenarioPool scenarioWindow 0 0).upward.map
        TradableAmount.price)
    ∧ List.Chain' (· > ·)
      ((listTradableAmounts simpleMath scenarioPool scenarioWindow 0 0).downward.map
        TradableAmount.price) :=
  c8_priceStrictlyMonotone simpleMath scenarioPool scenarioWindow 0 0 (by decide)
    (fun a b hab => by show ((a : ℚ)) < ((b : ℚ)); exact_mod_cast hab)

/-- Helper: the current tick lies in the half-open initializable interval
determined by floor division. -/
theorem lowerInit_le_lt (whirlpool : WhirlpoolData) (hts : 0 < whirlpool.tickSpacing) :
    lowerInitializableTickIndex whirlpool ≤ whirlpool.tickCurrentIndex
    ∧ whirlpool.tickCurrentIndex < upperInitializableTickIndex whirlpool := by
  have h1 := Int.fdiv_add_fmod whirlpool.tickCurrentIndex whirlpool.tickSpacing
  have h2 := Int.fmod_nonneg' whirlpool.tickCurrentIndex hts
  have h3 := Int.fmod_lt_of_pos whirlpool.tickCurrentIndex hts
  unfold upperInitializableTickIndex lowerInitializableTickIndex
  constructor <;> nlinarith

/-- Helper for C6: over a stretch of steps whose lookups are all known, whose
candidates all stay inside the upward bound without touching an array
boundary, and after which the bound is exceeded, the upward bucket loop adds
to its single accumulator cell exactly the sum of the amounts of the records
the upward per-step loop produces from the same starting state. -/
theorem upwardBucketLoop_accumulates_stepSum (m : MathCollab)
    (tas : List (Option TickArrayData)) (ts upperInit bound tIA : Int) (dA dB : Nat)
    (hts : 0 < ts) :
    ∀ (r fuel i : Nat) (t sp L : Int) (x y : ℚ),
      r ≤ fuel →
      t < upperInit + (i : Int) * ts →
      (∀ j : Nat, j < r → (getTick (upperInit + ((i + j : Nat) : Int) * ts) ts tas).isSome) →
      (∀ j : Nat, j < r → upperInit + ((i + j : Nat) : Int) * ts ≤ bound) →
      bound < upperInit + ((i + r : Nat) : Int) * ts →
      (∀ j : Nat, j < r → ¬ (upperInit + ((i + j : Nat) : Int) * ts) % tIA = 0) →
      upwardBucketLoop m tas ts upperInit bound tIA dA dB fuel i 0 t sp L [x] [y]
        = ([x + ((upwardLoop m tas ts upperInit dA dB r i t sp L).map
              TradableAmount.amountA).sum],
           [y + ((upwardLoop m tas ts upperInit dA dB r i t sp L).map
              TradableAmount.amountB).sum]) := by
  intro r
  induction r with
  | zero =>
    intro fuel i t sp L x y hfuel hprog hknown hle hgt hnb
    simp only [upwardLoop, List.map_nil, List.sum_nil, add_zero]
    cases fuel with
    | zero => rfl
    | succ f =>
      simp only [Nat.add_zero] at hgt
      simp only [upwardBucketLoop, if_pos hgt]
  | succ r ih =>
    intro fuel i t sp L x y hfuel hprog hknown hle hgt hnb
    cases fuel with
    | zero => omega
    | succ f =>
      have hk0 : (getTick (upperInit + (i : Int) * ts) ts tas).isSome := by
        have := hknown 0 (by omega)
        simpa using this
      obtain ⟨tk, hk⟩ := Option.isSome_iff_exists.mp hk0
      have hle0 : upperInit + (i : Int) * ts ≤ bound := by
        have := hle 0 (by omega)
        simpa using this
      have hnb0 : ¬ (upperInit + (i : Int) * ts) % tIA = 0 := by
        have := hnb 0 (by omega)
        simpa using this
      -- unfold one bucket-loop step
      rw [upwardBucketLoop]
      simp only [hk, if_neg (by omega : ¬ upperInit + (i : Int) * ts > bound), if_neg hnb0,
        List.set_cons_zero, List.getD_cons_zero]
      -- unfold one per-step-loop step
      rw [upwardLoop]
      simp only [hk, Option.isSome_some, Option.isNone_some, Bool.false_eq_true, if_false,
        if_neg (by omega : ¬ upperInit + (i : Int) * ts ≤ t), List.map_cons, List.sum_cons]
      have hrec := ih f (i + 1) (upperInit + (i : Int) * ts)
        (m.tickIndexToSqrtPriceX64 (upperInit + (i : Int) * ts)) (L + tk.liquidityNet)
        (x + fromBN (m.getAmountDeltaA sp
          (m.tickIndexToSqrtPriceX64 (upperInit + (i : Int) * ts)) L false) dA)
        (y + fromBN (m.getAmountDeltaB sp
          (m.tickIndexToSqrtPriceX64 (upperInit + (i : Int) * ts)) L true) dB)
        (by omega)
        (by push_cast; nlinarith)
        (by
          intro j hj
          have := hknown (j + 1) (by omega)
          have harith : ((i + (j + 1) : Nat) : Int) = ((i + 1 + j : Nat) : Int) := by
            push_cast; ring
          rwa [harith] at this)
        (by
          intro j hj
          have := hle (j + 1) (by omega)
          have harith : ((i + (j + 1) : Nat) : Int) = ((i + 1 + j : Nat) : Int) := by
            push_cast; ring
          rwa [harith] at this)
        (by
          have harith : ((i + (r + 1) : Nat) : Int) = ((i + 1 + r : Nat) : Int) := by
            push_cast; ring
          rwa [harith] at hgt)
        (by
          intro j hj
          have := hnb (j + 1) (by omega)
          have harith : ((i + (j + 1) : Nat) : Int) = ((i + 1 + j : Nat) : Int) := by
            push_cast; ring
          rwa [harith] at this)
      rw [hrec]
      simp only [add_assoc]

/-- C6 (confirmed).  For every pool with positive tick spacing and every
fully-known single-bucket window holding the current tick's array, whenever
the tick range covered by the per-bucket traversal coincides with the range
covered by the ten upward per-step records (all ten lookups known, the tenth
candidate is the last one inside the upward bound, and no candidate lands on
an array boundary), the amountA of the single upward bucket record equals
the sum of amountA over all upward step records, and likewise for amountB. -/
theorem c6_stepSumMatchesBucketRecord (m : MathCollab) (pool : WhirlpoolData)
    (b : TickArrayData) (pk : Nat) (dA dB : Nat)
    (hts : 0 < pool.tickSpacing)
    (hb : b.startTickIndex = currentTickArrayStartIndexOf pool)
    (hknown : ∀ j : Nat, j < 10 →
      (getTick (upperInitializableTickIndex pool + (j : Int) * pool.tickSpacing)
        pool.tickSpacing [some b]).isSome)
    (hcov1 : upperInitializableTickIndex pool + 9 * pool.tickSpacing
      ≤ min MAX_TICK_INDEX (currentTickArrayStartIndexOf pool + ticksInArrayOf pool))
    (hcov2 : min MAX_TICK_INDEX (currentTickArrayStartIndexOf pool + ticksInArrayOf pool)
      < upperInitializableTickIndex pool + 10 * pool.tickSpacing)
    (hnb : ∀ j : Nat, j < 10 →
      ¬ (upperInitializableTickIndex pool + (j : Int) * pool.tickSpacing)
          % ticksInArrayOf pool = 0) :
    (listTickArrayTradableAmounts m pool [b.startTickIndex] [pk] [some b] dA dB).upward.map
        TickArrayTradableAmount.amountA
      = [((listTradableAmounts m pool [some b] dA dB).upward.map TradableAmount.amountA).sum]
    ∧ (listTickArrayTradableAmounts m pool [b.startTickIndex] [pk] [some b] dA dB).upward.map
        TickArrayTradableAmount.amountB
      = [((listTradableAmounts m pool [some b] dA dB).upward.map TradableAmount.amountB).sum] := by
  have hcur : currentTickArrayIndexOf pool [b.startTickIndex] = 0 := by
    simp [currentTickArrayIndexOf, hb, Int.zero_fdiv]
  have h9 : (9 : Int) * pool.tickSpacing ≥ 9 := by nlinarith
  have hfuel : 10 ≤ (min MAX_TICK_INDEX (currentTickArrayStartIndexOf pool + ticksInArrayOf pool)
      - upperInitializableTickIndex pool).toNat + 1 := by omega
  have hprog : pool.tickCurrentIndex
      < upperInitializableTickIndex pool + ((0 : Nat) : Int) * pool.tickSpacing := by
    have := (lowerInit_le_lt pool hts).2
    push_cast
    omega
  have hacc := upwardBucketLoop_accumulates_stepSum m [some b] pool.tickSpacing
    (upperInitializableTickIndex pool)
    (min MAX_TICK_INDEX (currentTickArrayStartIndexOf pool + ticksInArrayOf pool))
    (ticksInArrayOf pool) dA dB hts
    10 ((min MAX_TICK_INDEX (currentTickArrayStartIndexOf pool + ticksInArrayOf pool)
      - upperInitializableTickIndex pool).toNat + 1) 0
    pool.tickCurrentIndex pool.sqrtPrice pool.liquidity 0 0
    hfuel
    hprog
    (by intro j hj; simpa using hknown j hj)
    (by
      intro j hj
      have hj9 : (j : Int) ≤ 9 := by exact_mod_cast Nat.lt_succ_iff.mp hj
      have hmul : (j : Int) * pool.tickSpacing ≤ 9 * pool.tickSpacing := by nlinarith
      simp only [Nat.zero_add]
      omega)
    (by
      have h10 : ((0 + 10 : Nat) : Int) = 10 := by norm_num
      rw [h10]
      exact hcov2)
    (by intro j hj; simpa using hnb j hj)
  simp only [Nat.zero_add] at hacc
  have e0 : (((0 : Nat) : Int)).toNat = 0 := rfl
  have e1 : (((1 : Nat) : Int)).toNat = 1 := rfl
  have e4 : (0 : Int).toNat = 0 := rfl
  have e5 : (1 : Int).toNat = 1 := rfl
  have e2 : List.range 1 = [0] := rfl
  have e3 : List.replicate 1 (0 : ℚ) = [0] := rfl
  constructor
  · simp only [listTickArrayTradableAmounts, listTradableAmounts, hcur, List.length_singleton,
      Int.sub_zero, e0, e1, e4, e5, e2, e3, List.map_cons, List.map_nil,
      Nat.cast_zero, Nat.cast_one, add_zero, sub_zero, List.getD_cons_zero,
      List.length_cons, List.length_nil, one_mul, zero_add]
    rw [hacc]
    simp
  · simp only [listTickArrayTradableAmounts, listTradableAmounts, hcur, List.length_singleton,
      Int.sub_zero, e0, e1, e4, e5, e2, e3, List.map_cons, List.map_nil,
      Nat.cast_zero, Nat.cast_one, add_zero, sub_zero, List.getD_cons_zero,
      List.length_cons, List.length_nil, one_mul, zero_add]
    rw [hacc]
    simp

/-- C6 witness: a concrete single-bucket window at the top of the tick range
(tick spacing 64, current tick 442944, array start 439296), where the upward
bound is capped by the global maximum tick so that the ten per-step records
cover exactly the per-bucket traversal range; the bucket amount equals the
step sum. -/
theorem c6_witness :
    (listTickArrayTradableAmounts simpleMath (⟨64, 442944, 442944, 1000000⟩ : WhirlpoolData)
        [(zeroTickArray 439296).startTickIndex] [7] [some (zeroTickArray 439296)] 0 0).upward.map
        TickArrayTradableAmount.amountA
      = [((listTradableAmounts simpleMath (⟨64, 442944, 442944, 1000000⟩ : WhirlpoolData)
          [some (zeroTickArray 439296)] 0 0).upward.map TradableAmount.amountA).sum]
    ∧ (listTickArrayTradableAmounts simpleMath (⟨64, 442944, 442944, 1000000⟩ : WhirlpoolData)
        [(zeroTickArray 439296).startTickIndex] [7] [some (zeroTickArray 439296)] 0 0).upward.map
        TickArrayTradableAmount.amountB
      = [((listTradableAmounts simpleMath (⟨64, 442944, 442944, 1000000⟩ : WhirlpoolData)
          [some (zeroTickArray 439296)] 0 0).upward.map TradableAmount.amountB).sum] :=
  c6_stepSumMatchesBucketRecord simpleMath ⟨64, 442944, 442944, 1000000⟩ (zeroTickArray 439296)
    7 0 0 (by decide) (by decide) (by decide) (by decide) (by decide) (by decide)
